import Mathlib

/-!
Verification development for the apos-ai-chatbot ingestion core.

Text is modelled as `List Char` (JS strings are sequences of UTF-16 units;
all inputs relevant here are ASCII, where the two views agree and Lean's
`String.toList` provides literals).  JS `for` loops over arrays become
structural recursions; the two source recursions whose JS termination
argument is numeric (`recursiveSplit`, which drops one separator per
nesting level, and the slice loop of `forceSplit`) are given an explicit
fuel argument that is always supplied large enough to be inexhaustible for
the arguments the source can produce, keeping every definition reducible.
-/

/-- Strings of the JS source, as character lists. -/
abbrev Str := List Char

/-- JS `String.prototype.trim` (whitespace stripped from both ends). -/
def trimChars (l : Str) : Str :=
  ((l.dropWhile Char.isWhitespace).reverse.dropWhile Char.isWhitespace).reverse

/-- JS `str.includes(sub)` (substring containment, case sensitive):
true iff `sub` occurs contiguously in `s`. -/
def jsIncludes : Str → Str → Bool
  | [], sub => sub.isPrefixOf []
  | c :: rest, sub => sub.isPrefixOf (c :: rest) || jsIncludes rest sub

/-- JS `str.toLowerCase()` (ASCII range; all classifier needles are ASCII). -/
def toLowerList (l : Str) : Str :=
  l.map Char.toLower

/-- JS `str.slice(-n)`: the last `n` characters (the whole string when
`n = 0`, since `slice(-0)` is `slice(0)`; call sites guard `n > 0`). -/
def sliceLast (s : Str) (n : Nat) : Str :=
  if n = 0 then s else s.drop (s.length - n)

/-- Loop of JS `text.split(separator)` for a nonempty separator: scan left
to right, cutting at each (non-overlapping) occurrence of `sep`.  `fuel`
is at least `text.length + 1`, and each step consumes one character, so it
never runs out. -/
def splitGo : Nat → Str → Str → Str → List Str
  | 0, _, _, cur => [cur.reverse]
  | fuel + 1, sep, text, cur =>
    match text with
    | [] => [cur.reverse]
    | c :: rest =>
      if sep.isPrefixOf text then
        cur.reverse :: splitGo fuel sep (text.drop sep.length) []
      else
        splitGo fuel sep rest (c :: cur)

/-- JS `text.split(separator)`.  An empty separator splits into single
characters (never reached from `recursiveSplit`, which tests `!separator`
first). -/
def jsSplit (text sep : Str) : List Str :=
  if sep = [] then text.map (fun c => [c])
  else splitGo (text.length + 1) sep text []

/-- Loop of `forceSplit` (chunk-processor lines 118-124): fixed windows of
`maxSize` characters via `slice(i, i + maxSize)`.  `fuel` is
`text.length + 1`; with `maxSize ≥ 1` (every call site has
`text.length > maxSize ≥ 1`) each step strictly shortens the text, so the
fuel never runs out.  With `maxSize = 0` the JS loop would never
terminate; the fuel cutoff stands in for that unreachable divergence. -/
def forceGo : Nat → Str → Nat → List Str
  | 0, _, _ => []
  | fuel + 1, text, maxSize =>
    if text = [] then []
    else text.take maxSize :: forceGo fuel (text.drop maxSize) maxSize

/-- `forceSplit(text, maxSize)` — last-resort fixed-size windowing. -/
def forceSplit (text : Str) (maxSize : Nat) : List Str :=
  forceGo (text.length + 1) text maxSize

/-- `if (currentChunk) result.push(currentChunk)` — the flush idiom of
`recursiveSplit` (chunk-processor lines 91-93 and 105-107). -/
def flushChunk (result : List Str) (currentChunk : Str) : List Str :=
  if currentChunk = [] then result else result ++ [currentChunk]

/-- The `for (const part of parts)` loop of `recursiveSplit`
(chunk-processor lines 84-109).  `recur` is the recursive call with the
remaining separators, `result`/`currentChunk` the loop state.  JS `if
(currentChunk)` is the emptiness test, and `currentChunk += (currentChunk
? separator : '') + part` is the accumulate branch. -/
def splitParts (sep : Str) (maxSize : Nat) (recur : Str → List Str) :
    List Str → List Str → Str → List Str
  | [], result, currentChunk => flushChunk result currentChunk
  | part :: ps, result, currentChunk =>
    if currentChunk.length + part.length + sep.length ≤ maxSize then
      splitParts sep maxSize recur ps result
        (currentChunk ++ (if currentChunk = [] then [] else sep) ++ part)
    else
      if part.length > maxSize then
        splitParts sep maxSize recur ps (flushChunk result currentChunk ++ recur part) []
      else
        splitParts sep maxSize recur ps (flushChunk result currentChunk) part

/-- `recursiveSplit(text, separators, maxSize)` (chunk-processor lines
71-110) with fuel bounding the recursion depth. JS destructures
`const [separator, ...remainingSeparators] = separators` and tests
`if (!separator)`, which is true both when the list is exhausted
(`undefined`) and when the next separator is the empty string; both go to
`forceSplit`.  Each nested call drops one separator, so fuel
`separators.length + 1` is never exhausted; the fuel-0 body repeats the
exhausted-separator case. -/
def recursiveSplitF : Nat → Str → List Str → Nat → List Str
  | 0, text, _, maxSize =>
    if text.length ≤ maxSize then [text] else forceSplit text maxSize
  | fuel + 1, text, separators, maxSize =>
    if text.length ≤ maxSize then [text]
    else
      match separators with
      | [] => forceSplit text maxSize
      | sep :: remainingSeparators =>
        if sep = [] then forceSplit text maxSize
        else
          splitParts sep maxSize
            (fun part => recursiveSplitF fuel part remainingSeparators maxSize)
            (jsSplit text sep) [] []

/-- `recursiveSplit` at its natural fuel. -/
def recursiveSplit (text : Str) (separators : List Str) (maxSize : Nat) : List Str :=
  recursiveSplitF (separators.length + 1) text separators maxSize

/-- `CONSTANTS.CHUNKING.SEPARATORS` from shared/constants.js, i.e. the
strings "\n\n", "\n", ". ", " " and "" as character lists. -/
def defaultSeparators : List Str :=
  [['\n', '\n'], ['\n'], ['.', ' '], [' '], []]

/-- Chunk configuration with the defaults of `CONSTANTS.CHUNKING`
(maxChunkSize 1000, overlap 200) applied by `chunkText`'s destructuring. -/
structure ChunkConfig where
  maxChunkSize : Nat := 1000
  overlap : Nat := 200
  separators : List Str := defaultSeparators

/-- `chunkText(text, {})` — all defaults. -/
def defaultChunkConfig : ChunkConfig := {}

/-- The object stored under a chunk's `metadata` key.  The source sets
`source`, `chunkIndex` and `totalChunks`; `section` (a reserved word in
Lean, hence `sectionLabel`) is never set by `chunkText` and is read back
by `processScrapedPages` through `chunk.metadata.section ||`, so it is
modelled as an `Option` that `chunkText` leaves at `none`. -/
structure ChunkMetadata where
  source : Str
  chunkIndex : Nat
  totalChunks : Nat
  sectionLabel : Option Str := none
deriving Repr, DecidableEq

/-- A `TextChunk` as produced by `chunkText`. -/
structure TextChunk where
  content : Str
  metadata : ChunkMetadata
deriving Repr, DecidableEq

/-- The chunk-building loop of `chunkText` (lines 41-59): chunk `i` is
`splits[i]`, prefixed for `i > 0 && overlap > 0` by the last `overlap`
characters of `splits[i-1]` and a joining space, then trimmed. -/
def buildChunks (splits : List Str) (overlap : Nat) : List TextChunk :=
  (List.range splits.length).map (fun i =>
    let base := splits.getD i []
    let chunkContent :=
      if 0 < i ∧ 0 < overlap then
        sliceLast (splits.getD (i - 1) []) overlap ++ ' ' :: base
      else base
    { content := trimChars chunkContent
      metadata := { source := [], chunkIndex := i, totalChunks := splits.length } })

/-- `chunkText(text, config)` (chunk-processor lines 15-62).  Texts no
longer than `maxChunkSize` are returned as a single chunk whose content
is the text itself (the source does not trim on this path). -/
def chunkText (text : Str) (config : ChunkConfig) : List TextChunk :=
  if text.length ≤ config.maxChunkSize then
    [{ content := text
       metadata := { source := [], chunkIndex := 0, totalChunks := 1 } }]
  else
    buildChunks (recursiveSplit text config.separators config.maxChunkSize) config.overlap

/-! ## Pages and the metadata classifier (chunk-processor lines 132-220) -/

/-- The `metadata` object of a scraped page.  The source also records
`internalLinks`, `externalLinks` and a `scrapedAt` wall-clock timestamp;
none of those are read by the classifier, the chunker or the assembler,
and the timestamp is not a pure value, so the model keeps the two fields
the downstream code consumes. -/
structure PageMetadata where
  description : Str
  headings : List Str
deriving Repr, DecidableEq

/-- A `ScrapedPage` as produced by the scraper or an adapter. -/
structure ScrapedPage where
  url : Str
  title : Str
  content : Str
  links : List Str
  metadata : PageMetadata
deriving Repr, DecidableEq

/-- Result of `extractMetadata` (chunk-processor lines 174-220).
`section` is a Lean keyword, hence `sectionLabel`. -/
structure DocMetadata where
  version : Str
  framework : Str
  docType : Str
  keywords : List Str
  sectionLabel : Str
deriving Repr, DecidableEq

/-- `extractMetadata(page)`: version/framework/docType heuristics over the
lowercased url and content, keywords from the non-empty headings
(lowercased, first 10), section from the first heading (`|| ''`). -/
def extractMetadata (page : ScrapedPage) : DocMetadata :=
  let url := toLowerList page.url
  let content := toLowerList page.content
  let version :=
    if jsIncludes url "/v3/".toList || jsIncludes url "/3.x/".toList then "3.x".toList
    else "4.x".toList
  let framework :=
    if jsIncludes url "astro".toList || jsIncludes content "astro".toList then "astro".toList
    else if jsIncludes url "vue".toList || jsIncludes content "vue".toList then "vue".toList
    else if jsIncludes url "nunjucks".toList then "nunjucks".toList
    else "core".toList
  let docType :=
    if jsIncludes url "/reference/".toList || jsIncludes url "/api/".toList then "reference".toList
    else if jsIncludes url "/tutorial/".toList then "tutorial".toList
    else if jsIncludes url "/migration/".toList then "migration".toList
    else "guide".toList
  let keywords := ((page.metadata.headings.filter (fun h => 0 < h.length)).map toLowerList).take 10
  let sectionLabel := page.metadata.headings.getD 0 []
  { version := version, framework := framework, docType := docType,
    keywords := keywords, sectionLabel := sectionLabel }

/-- The metadata bag of an assembled document: the chunk position fields
plus the spread of the page's own metadata (`...page.metadata`). -/
structure DocMetaBag where
  sectionLabel : Str
  chunkIndex : Nat
  totalChunks : Nat
  description : Str
  headings : List Str
deriving Repr, DecidableEq

/-- A `WeaviateDocument` as assembled by `processScrapedPages`. -/
structure WeaviateDocument where
  content : Str
  title : Str
  url : Str
  version : Str
  framework : Str
  docType : Str
  keywords : List Str
  metadata : DocMetaBag
deriving Repr, DecidableEq

/-- `processScrapedPages(pages, chunkConfig)` (chunk-processor lines
132-167): classify each page once, chunk its content once, and emit one
document per chunk.  `chunk.metadata.section || metadata.section` falls
back to the page-level section when the chunk carries no (or an empty)
section. -/
def processScrapedPages (pages : List ScrapedPage) (chunkConfig : ChunkConfig) :
    List WeaviateDocument :=
  pages.flatMap (fun page =>
    let metadata := extractMetadata page
    let chunks := chunkText page.content chunkConfig
    chunks.map (fun chunk =>
      { content := chunk.content
        title := page.title
        url := page.url
        version := metadata.version
        framework := metadata.framework
        docType := metadata.docType
        keywords := metadata.keywords
        metadata :=
          { sectionLabel :=
              match chunk.metadata.sectionLabel with
              | some s => if s = [] then metadata.sectionLabel else s
              | none => metadata.sectionLabel
            chunkIndex := chunk.metadata.chunkIndex
            totalChunks := chunk.metadata.totalChunks
            description := page.metadata.description
            headings := page.metadata.headings } }))

/-! ## Crawler model (playwright-scraper.js)

The scraper's external capabilities — URL parsing (`new URL`), the
network fetch of the sitemap, and the whole per-page render/extract
performed by `scrapePage` — are modelled as an environment of oracles.
`scrapePage` (lines 104-200) wraps all its page work in one
`try/catch` that returns `null` on any error, so its outcome for a given
URL is an `Option PageData`; on success it adds the URL to the visited
set (line 181) and returns a page whose `url` field is the input URL. -/

/-- A fetch `Response`: `ok`/`status` model the HTTP status line;
`fetchSitemap` never consults them (source lines 279-292). -/
structure HttpResponse where
  ok : Bool
  status : Nat
  body : Str
deriving Repr, DecidableEq

/-- What `scrapePage` extracts from a page when it succeeds. -/
structure PageData where
  title : Str
  content : Str
  links : List Str
  metadata : PageMetadata
deriving Repr, DecidableEq

/-- Scraper configuration fields used by `shouldScrape` and `scrape`.
`none` models an absent (`undefined`, falsy) field. -/
structure ScraperConfig where
  allowedDomains : Option (List Str)
  excludePatterns : Option (List Str)
  maxPages : Nat
deriving Repr

/-- External world of one crawl run: `hostname url` is `new URL(url)`
(`none` when the constructor throws), `sitemapResponse` the outcome of
`fetch(sitemapUrl)` (`error` when the promise rejects — a network-level
failure), `fetchPage` the outcome of `scrapePage` for each URL. -/
structure FetchEnv where
  hostname : Str → Option Str
  sitemapResponse : Except Str HttpResponse
  fetchPage : Str → Option PageData

/-- Content scan of the sitemap regex `<loc>(.*?)<\loc>` starting just
after a `<loc>`: the lazy `.*?` takes the earliest closing tag, and `.`
matches no line terminator, so a newline before the closing tag makes the
match attempt fail.  Returns the captured content and the number of
characters consumed through the closing tag. -/
def scanLocContent : Str → Option (Str × Nat)
  | [] => none
  | c :: rest =>
    if "</loc>".toList.isPrefixOf (c :: rest) then some ([], 6)
    else if c = '\n' || c = '\r' then none
    else
      match scanLocContent rest with
      | some (content, n) => some (c :: content, n + 1)
      | none => none

/-- The `while ((match = locRegex.exec(xml)) !== null)` loop of
`fetchSitemap` (lines 283-289): successive non-overlapping matches of
`<loc>(.*?)<\loc>`, scanning left to right; after a failed attempt the
scan resumes one character further on. -/
def extractLocsGo : Nat → Str → List Str
  | 0, _ => []
  | fuel + 1, xml =>
    match xml with
    | [] => []
    | c :: rest =>
      if "<loc>".toList.isPrefixOf (c :: rest) then
        match scanLocContent ((c :: rest).drop 5) with
        | some (content, consumed) =>
          content :: extractLocsGo fuel ((c :: rest).drop (5 + consumed))
        | none => extractLocsGo fuel rest
      else extractLocsGo fuel rest

/-- All `<loc>` captures of a document.  Every scan step consumes at least
one character, so fuel `xml.length` is never exhausted. -/
def extractLocs (xml : Str) : List Str :=
  extractLocsGo xml.length xml

/-- `fetchSitemap(sitemapUrl)` (lines 276-293): a rejected fetch
propagates; otherwise every `<loc>` entry of the body is extracted.  The
response's HTTP status is never examined. -/
def fetchSitemap (response : Except Str HttpResponse) : Except Str (List Str) :=
  match response with
  | Except.error e => Except.error e
  | Except.ok r => Except.ok (extractLocs r.body)

/-- `shouldScrape(url)` (lines 62-96): invalid URL → false (the catch
branch); already-visited → false; a configured non-empty allow-list must
match the hostname exactly or as a parent domain; a configured exclude
pattern occurring in the URL → false. -/
def shouldScrape (hostname : Str → Option Str) (config : ScraperConfig)
    (visited : List Str) (url : Str) : Bool :=
  match hostname url with
  | none => false
  | some host =>
    if visited.contains url then false
    else if (match config.allowedDomains with
             | some domains =>
               domains.length > 0 &&
                 !(domains.any (fun domain =>
                     host = domain || ('.' :: domain).isSuffixOf host))
             | none => false) then false
    else if (match config.excludePatterns with
             | some patterns => patterns.any (fun pattern => jsIncludes url pattern)
             | none => false) then false
    else true

/-- The `for (const url of urls)` loop of `scrape` (lines 233-242),
threading the visited set and the results array: on success the URL is
added to the visited set and the page appended; on failure (`null`) the
URL is skipped.  The visited set is never read back inside the loop. -/
def runPages (fetchPage : Str → Option PageData) :
    List Str → List Str → List ScrapedPage → List Str × List ScrapedPage
  | [], visited, results => (visited, results)
  | url :: rest, visited, results =>
    match fetchPage url with
    | some d =>
      runPages fetchPage rest
        (if visited.contains url then visited else visited ++ [url])
        (results ++ [{ url := url, title := d.title, content := d.content,
                       links := d.links, metadata := d.metadata }])
    | none => runPages fetchPage rest visited results

/-- The URL list actually scheduled: sitemap entries filtered by
`shouldScrape` against the fresh run's empty visited set (no insertion
happens during filtering), then truncated to `maxPages` (lines 222-228). -/
def candidateUrls (env : FetchEnv) (config : ScraperConfig) (r : HttpResponse) : List Str :=
  let urls := (extractLocs r.body).filter (fun url => shouldScrape env.hostname config [] url)
  if config.maxPages < urls.length then urls.take config.maxPages else urls

/-- One run of `PlaywrightScraper.scrape()` on a freshly constructed
scraper (lines 206-250): a failed sitemap fetch propagates before any
page work; otherwise the filtered, truncated URL list is processed in
order and the accumulated results are returned. -/
def scrape (env : FetchEnv) (config : ScraperConfig) : Except Str (List ScrapedPage) :=
  match fetchSitemap env.sitemapResponse with
  | Except.error e => Except.error e
  | Except.ok sitemapUrls =>
    let urls := sitemapUrls.filter (fun url => shouldScrape env.hostname config [] url)
    let urls := if config.maxPages < urls.length then urls.take config.maxPages else urls
    Except.ok (runPages env.fetchPage urls [] []).2

/-! ## OpenAPI processor synthetic URLs (openapi-processor.js) -/

/-- JS `path.replace(/\//g, '-')`: every slash becomes a dash. -/
def replaceSlashes (path : Str) : Str :=
  path.map (fun c => if c = '/' then '-' else c)

/-- The `method` keys accepted by the operation loop (line 64). -/
def httpMethods : List Str :=
  ["get".toList, "post".toList, "put".toList, "patch".toList,
   "delete".toList, "options".toList, "head".toList]

/-- URL of an operation page (line 201):
`${source}#${method}-${path.replace(/\//g, '-')}`. -/
def operationPageUrl (source method path : Str) : Str :=
  source ++ '#' :: (method ++ '-' :: replaceSlashes path)

/-- URL of a schema page (line 249): `${source}#schema-${schemaName}`. -/
def schemaPageUrl (source schemaName : Str) : Str :=
  source ++ ("#schema-".toList ++ schemaName)

/-! ## Claim-level definitions from the specification's wording -/

/-- The framework rule exactly as the specification words it, over the raw
(url, content) pair: "astro" if URL or content contains the substring
"astro"; else "vue" if either contains "vue"; else "nunjucks" if the URL
contains "nunjucks"; else "core".  (To be compared with `extractMetadata`,
which applies these rules to the lowercased strings.) -/
def claimedFramework (url content : Str) : Str :=
  if jsIncludes url "astro".toList || jsIncludes content "astro".toList then "astro".toList
  else if jsIncludes url "vue".toList || jsIncludes content "vue".toList then "vue".toList
  else if jsIncludes url "nunjucks".toList then "nunjucks".toList
  else "core".toList

/-! ## Theorems -/

/-- C1 (counterexample): the claim says a text no longer than
`maxChunkSize` comes back as one chunk whose content equals the *trimmed*
text.  On `" a "` (length 3 ≤ 1000) `chunkText` returns the text
untrimmed, which differs from its trim `"a"`; the single-chunk path
(chunk-processor lines 26-35) never trims. -/
theorem C1_cex_trim :
    chunkText " a ".toList defaultChunkConfig =
      [{ content := " a ".toList
         metadata := { source := [], chunkIndex := 0, totalChunks := 1 } }] ∧
    trimChars " a ".toList = "a".toList ∧
    " a ".toList ≠ "a".toList := by decide

/-- C1 (amended): for every text with `length ≤ maxChunkSize` (the empty
string included), `chunkText` returns exactly one chunk whose content is
the text itself, untrimmed, with `chunkIndex = 0` and `totalChunks = 1`. -/
theorem C1_single_chunk_untrimmed (text : Str) (config : ChunkConfig)
    (h : text.length ≤ config.maxChunkSize) :
    chunkText text config =
      [{ content := text
         metadata := { source := [], chunkIndex := 0, totalChunks := 1 } }] := by
  simp [chunkText, h]

/-- C1 (witness): the amended statement at the empty string under the
default configuration. -/
theorem C1_single_chunk_untrimmed_inst :
    chunkText "".toList defaultChunkConfig =
      [{ content := "".toList
         metadata := { source := [], chunkIndex := 0, totalChunks := 1 } }] :=
  C1_single_chunk_untrimmed "".toList defaultChunkConfig (by decide)

/-- C2: for every text and configuration, the `chunkIndex` values of the
sequence returned by `chunkText` are exactly `0, 1, ..., n-1` in order
(`n` the number of chunks returned), and every chunk's `totalChunks`
field equals `n`. -/
theorem C2_chunkIndex_contiguous (text : Str) (config : ChunkConfig) :
    (chunkText text config).map (fun c => c.metadata.chunkIndex) =
      List.range (chunkText text config).length ∧
    ∀ c ∈ chunkText text config,
      c.metadata.totalChunks = (chunkText text config).length := by
  by_cases h : text.length ≤ config.maxChunkSize
  · constructor
    · simp only [chunkText, if_pos h]
      rfl
    · simp [chunkText, h]
  · simp only [chunkText, if_neg h, buildChunks]
    constructor
    · simp [List.map_map, Function.comp_def]
    · intro c hc
      simp only [List.mem_map, List.mem_range] at hc
      obtain ⟨i, _, rfl⟩ := hc
      simp

/-- C2 (witness): the property at a concrete short text, whose single
chunk carries index 0 and totalChunks 1. -/
theorem C2_chunkIndex_contiguous_inst :
    (chunkText "hello".toList defaultChunkConfig).map (fun c => c.metadata.chunkIndex) =
      List.range (chunkText "hello".toList defaultChunkConfig).length ∧
    ({ content := "hello".toList
       metadata := { source := [], chunkIndex := 0, totalChunks := 1 } } :
        TextChunk).metadata.totalChunks =
      (chunkText "hello".toList defaultChunkConfig).length :=
  ⟨(C2_chunkIndex_contiguous "hello".toList defaultChunkConfig).1,
   (C2_chunkIndex_contiguous "hello".toList defaultChunkConfig).2 _ (by decide)⟩

/-- C7 (counterexample): the claim states the framework rules over the
raw URL/content ("contains the substring 'astro'", case sensitive, as
the first matching rule).  A URL containing "Astro" but not "astro"
matches no rule as claimed (so the claim demands "core"), yet the code
lowercases before testing and returns "astro". -/
theorem C7_cex_case_sensitivity :
    (extractMetadata
        { url := "https://example.com/Astro/guide.html".toList
          title := [], content := [], links := []
          metadata := { description := [], headings := [] } }).framework = "astro".toList ∧
    claimedFramework "https://example.com/Astro/guide.html".toList [] = "core".toList ∧
    ("astro".toList : Str) ≠ "core".toList := by decide

/-- C7 (amended): for every page, the classifier assigns `framework` by
exactly the claimed first-match rule order — astro, vue (URL or content),
nunjucks (URL only), default core — applied to the lowercased URL and
content (matching is case-insensitive). -/
theorem C7_framework_rules_on_lowercased (page : ScrapedPage) :
    (extractMetadata page).framework =
      claimedFramework (toLowerList page.url) (toLowerList page.content) := rfl

/-- Every window produced by the force-split loop has length at most
`maxSize`. -/
theorem forceGo_length_le (maxSize : Nat) :
    ∀ (fuel : Nat) (text : Str), ∀ s ∈ forceGo fuel text maxSize, s.length ≤ maxSize := by
  intro fuel
  induction fuel with
  | zero => intro text s hs; simp [forceGo] at hs
  | succ n ih =>
    intro text s hs
    by_cases h : text = []
    · simp [forceGo, h] at hs
    · simp only [forceGo, if_neg h, List.mem_cons] at hs
      rcases hs with rfl | hs
      · simp only [List.length_take]
        omega
      · exact ih _ s hs

/-- Members of a flushed result list, given bounds on the inputs. -/
theorem flushChunk_length_le (maxSize : Nat) (result : List Str) (currentChunk : Str)
    (hres : ∀ r ∈ result, r.length ≤ maxSize) (hcur : currentChunk.length ≤ maxSize) :
    ∀ r ∈ flushChunk result currentChunk, r.length ≤ maxSize := by
  intro r hr
  unfold flushChunk at hr
  split at hr
  · exact hres r hr
  · rcases List.mem_append.1 hr with h | h
    · exact hres r h
    · simp only [List.mem_singleton] at h
      subst h
      exact hcur

/-- Every segment emitted by the accumulate-and-flush loop has length at
most `maxSize`, provided the recursive splitter's segments do and the
loop state is in bounds. -/
theorem splitParts_length_le (sep : Str) (maxSize : Nat) (recur : Str → List Str)
    (hrec : ∀ part, ∀ s ∈ recur part, s.length ≤ maxSize) :
    ∀ (parts : List Str) (result : List Str) (currentChunk : Str),
      (∀ r ∈ result, r.length ≤ maxSize) → currentChunk.length ≤ maxSize →
      ∀ s ∈ splitParts sep maxSize recur parts result currentChunk, s.length ≤ maxSize := by
  intro parts
  induction parts with
  | nil =>
    intro result currentChunk hres hcur s hs
    exact flushChunk_length_le maxSize result currentChunk hres hcur s hs
  | cons part ps ih =>
    intro result currentChunk hres hcur s hs
    simp only [splitParts] at hs
    split at hs
    case isTrue hfit =>
      refine ih _ _ hres ?_ s hs
      by_cases hc : currentChunk = [] <;>
        simp only [hc, if_pos, if_neg, List.length_append, List.length_nil,
          reduceIte] <;>
        omega
    case isFalse hfit =>
      split at hs
      case isTrue hbig =>
        refine ih _ _ ?_ (by simp) s hs
        intro r hr
        rcases List.mem_append.1 hr with h | h
        · exact flushChunk_length_le maxSize result currentChunk hres hcur r h
        · exact hrec part r h
      case isFalse hbig =>
        refine ih _ _ (flushChunk_length_le maxSize result currentChunk hres hcur) ?_ s hs
        omega

/-- Every segment returned by the fueled recursive splitter has length at
most `maxSize`. -/
theorem recursiveSplitF_length_le (maxSize : Nat) :
    ∀ (fuel : Nat) (text : Str) (separators : List Str),
      ∀ s ∈ recursiveSplitF fuel text separators maxSize, s.length ≤ maxSize := by
  intro fuel
  induction fuel with
  | zero =>
    intro text separators s hs
    simp only [recursiveSplitF] at hs
    split at hs
    · next h => simp only [List.mem_singleton] at hs; subst hs; exact h
    · exact forceGo_length_le maxSize _ text s hs
  | succ n ih =>
    intro text separators s hs
    cases separators with
    | nil =>
      simp only [recursiveSplitF] at hs
      split at hs
      · next h => simp only [List.mem_singleton] at hs; subst hs; exact h
      · exact forceGo_length_le maxSize _ text s hs
    | cons sep remainingSeparators =>
      simp only [recursiveSplitF] at hs
      split at hs
      · next h => simp only [List.mem_singleton] at hs; subst hs; exact h
      · split at hs
        · exact forceGo_length_le maxSize _ text s hs
        · exact splitParts_length_le sep maxSize _ (fun part => ih part remainingSeparators)
            (jsSplit text sep) [] [] (by simp) (by simp) s hs

/-- Every segment returned by `recursiveSplit` has length at most
`maxSize`. -/
theorem recursiveSplit_length_le (text : Str) (separators : List Str) (maxSize : Nat) :
    ∀ s ∈ recursiveSplit text separators maxSize, s.length ≤ maxSize :=
  recursiveSplitF_length_le maxSize (separators.length + 1) text separators

/-- Trimming never lengthens a string. -/
theorem trimChars_length_le (l : Str) : (trimChars l).length ≤ l.length := by
  unfold trimChars
  have h1 : (l.dropWhile Char.isWhitespace).length ≤ l.length :=
    (List.dropWhile_sublist _).length_le
  have h2 := ((l.dropWhile Char.isWhitespace).reverse.dropWhile_sublist
    Char.isWhitespace).length_le
  simp only [List.length_reverse] at *
  omega

/-- C10: with `maxChunkSize ≥ 1`, every segment returned by
`recursiveSplit` has length at most `maxChunkSize`; hence every chunk of
`chunkText` has content length at most `maxChunkSize + overlap + 1`
(overlap prefix plus the joining space), and the first chunk is bounded
by `maxChunkSize` alone. -/
theorem C10_chunk_size_bound (text : Str) (config : ChunkConfig)
    (_hmax : 1 ≤ config.maxChunkSize) :
    (∀ s ∈ recursiveSplit text config.separators config.maxChunkSize,
        s.length ≤ config.maxChunkSize) ∧
    (∀ c ∈ chunkText text config,
        c.content.length ≤ config.maxChunkSize + config.overlap + 1) ∧
    (∀ c, (chunkText text config).head? = some c →
        c.content.length ≤ config.maxChunkSize) := by
  have hseg := recursiveSplit_length_le text config.separators config.maxChunkSize
  refine ⟨hseg, ?_, ?_⟩
  · intro c hc
    by_cases h : text.length ≤ config.maxChunkSize
    · simp only [chunkText, if_pos h, List.mem_singleton] at hc
      subst hc
      dsimp only
      omega
    · simp only [chunkText, if_neg h, buildChunks, List.mem_map, List.mem_range] at hc
      obtain ⟨i, hi, rfl⟩ := hc
      dsimp only
      refine Nat.le_trans (trimChars_length_le _) ?_
      have hbase :
          ((recursiveSplit text config.separators config.maxChunkSize).getD i []).length ≤
            config.maxChunkSize := by
        rw [List.getD_eq_getElem _ _ hi]
        exact hseg _ (List.getElem_mem hi)
      split
      · next hcond =>
        have hov : config.overlap ≠ 0 := by omega
        have hslice :
            (sliceLast ((recursiveSplit text config.separators config.maxChunkSize).getD
                (i - 1) []) config.overlap).length ≤ config.overlap := by
          simp only [sliceLast, if_neg hov, List.length_drop]
          omega
        simp only [List.length_append, List.length_cons]
        omega
      · omega
  · intro c hc
    by_cases h : text.length ≤ config.maxChunkSize
    · simp only [chunkText, if_pos h, List.head?_cons, Option.some.injEq] at hc
      subst hc
      exact h
    · simp only [chunkText, if_neg h, buildChunks] at hc
      rw [recursiveSplit] at hseg hc
      cases hsp : recursiveSplitF (config.separators.length + 1) text config.separators
          config.maxChunkSize with
      | nil => rw [hsp] at hc; simp at hc
      | cons s0 ss =>
        rw [hsp] at hseg hc
        simp only [List.length_cons, List.range_succ_eq_map, List.map_cons,
          List.head?_cons, Option.some.injEq] at hc
        subst hc
        dsimp only
        simp only [Nat.lt_irrefl, false_and, if_false, List.getD_cons_zero]
        exact Nat.le_trans (trimChars_length_le _) (hseg s0 (List.mem_cons_self s0 ss))

/-- A small configuration used to exercise the bounds concretely. -/
def smallChunkConfig : ChunkConfig :=
  { maxChunkSize := 3, overlap := 2, separators := defaultSeparators }

/-- C10 (witness): the bounds instantiated at a concrete text that is
force-split (no separators present) under a small configuration. -/
theorem C10_chunk_size_bound_inst :
    (∀ s ∈ recursiveSplit "abcdefgh".toList smallChunkConfig.separators
        smallChunkConfig.maxChunkSize, s.length ≤ smallChunkConfig.maxChunkSize) ∧
    (∀ c ∈ chunkText "abcdefgh".toList smallChunkConfig,
        c.content.length ≤ smallChunkConfig.maxChunkSize + smallChunkConfig.overlap + 1) ∧
    (∀ c, (chunkText "abcdefgh".toList smallChunkConfig).head? = some c →
        c.content.length ≤ smallChunkConfig.maxChunkSize) :=
  C10_chunk_size_bound "abcdefgh".toList smallChunkConfig (by decide)

/-- When the first character of the separator never occurs in the text,
the split scan finds no cut and returns the accumulator joined with the
whole text. -/
theorem splitGo_no_match (c0 : Char) (ss : Str) :
    ∀ (text : Str) (fuel : Nat) (cur : Str), text.length < fuel → c0 ∉ text →
      splitGo fuel (c0 :: ss) text cur = [cur.reverse ++ text] := by
  intro text
  induction text with
  | nil =>
    intro fuel cur hf _
    cases fuel with
    | zero => simp at hf
    | succ f => simp [splitGo]
  | cons a rest ih =>
    intro fuel cur hf hc
    cases fuel with
    | zero => simp at hf
    | succ f =>
      have hca : c0 ≠ a := fun h => hc (h ▸ List.mem_cons_self a rest)
      have hne : ((c0 :: ss).isPrefixOf (a :: rest)) = false := by
        simp [List.isPrefixOf, hca]
      simp only [splitGo, hne, Bool.false_eq_true, if_false]
      rw [ih f (a :: cur)
        (by simp only [List.length_cons] at hf; omega)
        (fun h => hc (List.mem_cons_of_mem a h))]
      simp

/-- `text.split(sep)` finds no occurrence when the separator's first
character is absent from the text. -/
theorem jsSplit_no_match (text : Str) (c0 : Char) (ss : Str) (hc : c0 ∉ text) :
    jsSplit text (c0 :: ss) = [text] := by
  simp only [jsSplit]
  rw [if_neg (by simp)]
  rw [splitGo_no_match c0 ss text (text.length + 1) [] (by omega) hc]
  simp

/-- A separator whose first character is absent from an oversized text is
simply consumed: the single oversized part recurses into the remaining
separators. -/
theorem recursiveSplitF_skip_sep (fuel maxSize : Nat) (text : Str) (c0 : Char) (ss : Str)
    (rem : List Str) (hlen : maxSize < text.length) (hc : c0 ∉ text) :
    recursiveSplitF (fuel + 1) text ((c0 :: ss) :: rem) maxSize =
      recursiveSplitF fuel text rem maxSize := by
  simp only [recursiveSplitF]
  rw [if_neg (by omega)]
  rw [if_neg (by simp)]
  rw [jsSplit_no_match text c0 ss hc]
  simp only [splitParts, flushChunk]
  rw [if_neg (by simp only [List.length_nil, List.length_cons]; omega)]
  rw [if_pos (by omega)]
  simp [splitParts, flushChunk]

/-- Reaching the empty separator of the priority list forces fixed-size
windows for an oversized text. -/
theorem recursiveSplitF_empty_sep (fuel maxSize : Nat) (text : Str) (rem : List Str)
    (hlen : maxSize < text.length) :
    recursiveSplitF (fuel + 1) text ([] :: rem) maxSize = forceSplit text maxSize := by
  simp only [recursiveSplitF]
  rw [if_neg (by omega)]
  simp

/-- The force-split loop on an exhausted text. -/
theorem forceGo_nil (fuel maxSize : Nat) : forceGo fuel [] maxSize = [] := by
  cases fuel <;> simp [forceGo]

/-- One step of the force-split loop on a nonempty text. -/
theorem forceGo_cons (fuel maxSize : Nat) (text : Str) (h : text ≠ []) :
    forceGo (fuel + 1) text maxSize =
      text.take maxSize :: forceGo fuel (text.drop maxSize) maxSize := by
  simp [forceGo, h]

/-- A nonempty replicate is not the empty list. -/
theorem replicate_ne_nil_of_ne_zero (n : Nat) (a : Char) (hn : n ≠ 0) :
    (List.replicate n a : Str) ≠ [] := by
  intro h
  have := congrArg List.length h
  simp at this
  exact hn this

/-- Force-splitting 2500 identical characters into windows of 1000 yields
windows of 1000, 1000 and 500. -/
theorem forceSplit_replicate_2500 :
    forceSplit (List.replicate 2500 'A') 1000 =
      [List.replicate 1000 'A', List.replicate 1000 'A', List.replicate 500 'A'] := by
  have step : ∀ (fuel n : Nat), n ≠ 0 →
      forceGo (fuel + 1) (List.replicate n 'A') 1000 =
        List.replicate (min 1000 n) 'A' ::
          forceGo fuel (List.replicate (n - 1000) 'A') 1000 := by
    intro fuel n hn
    rw [forceGo_cons fuel 1000 _ (replicate_ne_nil_of_ne_zero n 'A' hn),
      List.take_replicate, List.drop_replicate]
  rw [forceSplit]
  rw [show (List.replicate 2500 'A').length + 1 = 2500 + 1 by
    rw [List.length_replicate]]
  rw [step 2500 2500 (by omega)]
  norm_num
  rw [show (2500 : Nat) = 2499 + 1 from rfl, step 2499 1500 (by omega)]
  norm_num
  rw [show (2499 : Nat) = 2498 + 1 from rfl, step 2498 500 (by omega)]
  norm_num
  exact forceGo_nil 2498 1000

/-- A string whose first and last characters are not whitespace is
unchanged by trimming. -/
theorem trimChars_eq_self (l : Str)
    (h1 : ∀ c, l.head? = some c → ¬ c.isWhitespace)
    (h2 : ∀ c, l.getLast? = some c → ¬ c.isWhitespace) : trimChars l = l := by
  have e1 : l.dropWhile Char.isWhitespace = l := by
    cases l with
    | nil => rfl
    | cons a t => exact List.dropWhile_cons_of_neg (h1 a rfl)
  unfold trimChars
  rw [e1]
  cases hrev : l.reverse with
  | nil =>
    have hl : l = [] := by simpa using congrArg List.reverse hrev
    subst hl
    rfl
  | cons b u =>
    have hb : ¬ b.isWhitespace := by
      apply h2
      rw [List.getLast?_eq_head?_reverse, hrev]
      rfl
    rw [List.dropWhile_cons_of_neg hb, ← hrev, List.reverse_reverse]

/-- Trimming a repetition of a non-whitespace character is the identity. -/
theorem trimChars_replicate (n : Nat) (a : Char) (ha : ¬ a.isWhitespace) :
    trimChars (List.replicate n a) = List.replicate n a := by
  apply trimChars_eq_self
  · intro c hc
    cases n with
    | zero => simp at hc
    | succ m =>
      rw [List.replicate_succ, List.head?_cons] at hc
      simp only [Option.some.injEq] at hc
      subst hc
      exact ha
  · intro c hc
    rw [List.getLast?_eq_head?_reverse, List.reverse_replicate] at hc
    cases n with
    | zero => simp at hc
    | succ m =>
      rw [List.replicate_succ, List.head?_cons] at hc
      simp only [Option.some.injEq] at hc
      subst hc
      exact ha

/-- Trimming a block that starts and ends with runs of a non-whitespace
character is the identity. -/
theorem trimChars_block (m n : Nat) (a b : Char) (ha : ¬ a.isWhitespace) :
    trimChars (List.replicate (m + 1) a ++ b :: List.replicate (n + 1) a) =
      List.replicate (m + 1) a ++ b :: List.replicate (n + 1) a := by
  apply trimChars_eq_self
  · intro c hc
    rw [List.replicate_succ a m, List.cons_append, List.head?_cons] at hc
    simp only [Option.some.injEq] at hc
    subst hc
    exact ha
  · intro c hc
    rw [List.getLast?_eq_head?_reverse, List.reverse_append, List.reverse_cons,
      List.reverse_replicate, List.reverse_replicate, List.replicate_succ a n,
      List.cons_append, List.cons_append, List.head?_cons] at hc
    simp only [Option.some.injEq] at hc
    subst hc
    exact ha

/-- The five default separators are skipped one by one on 2500 identical
characters (none of them occurs), down to the forced fixed-size split. -/
theorem recursiveSplit_replicate_2500 :
    recursiveSplit (List.replicate 2500 'A') defaultSeparators 1000 =
      [List.replicate 1000 'A', List.replicate 1000 'A', List.replicate 500 'A'] := by
  have hmem : ∀ c : Char, c ≠ 'A' → c ∉ List.replicate 2500 'A' := by
    intro c hcA hmem
    rw [List.mem_replicate] at hmem
    exact hcA hmem.2
  have hlen : (1000 : Nat) < (List.replicate 2500 'A').length := by
    rw [List.length_replicate]
    omega
  rw [recursiveSplit]
  rw [show defaultSeparators.length + 1 = 5 + 1 from rfl]
  rw [show defaultSeparators =
    ['\n', '\n'] :: [['\n'], ['.', ' '], [' '], []] from rfl]
  rw [recursiveSplitF_skip_sep 5 1000 _ '\n' ['\n'] _ hlen (hmem '\n' (by decide))]
  rw [show (5 : Nat) = 4 + 1 from rfl,
    recursiveSplitF_skip_sep 4 1000 _ '\n' [] _ hlen (hmem '\n' (by decide))]
  rw [show (4 : Nat) = 3 + 1 from rfl,
    recursiveSplitF_skip_sep 3 1000 _ '.' [' '] _ hlen (hmem '.' (by decide))]
  rw [show (3 : Nat) = 2 + 1 from rfl,
    recursiveSplitF_skip_sep 2 1000 _ ' ' [] _ hlen (hmem ' ' (by decide))]
  rw [show (2 : Nat) = 1 + 1 from rfl,
    recursiveSplitF_empty_sep 1 1000 _ _ hlen]
  exact forceSplit_replicate_2500

/-- The chunk-assembly loop evaluated on exactly three segments. -/
theorem buildChunks_three (s0 s1 s2 : Str) (ov : Nat) (hov : 0 < ov) :
    buildChunks [s0, s1, s2] ov =
      [{ content := trimChars s0
         metadata := { source := [], chunkIndex := 0, totalChunks := 3 } },
       { content := trimChars (sliceLast s0 ov ++ ' ' :: s1)
         metadata := { source := [], chunkIndex := 1, totalChunks := 3 } },
       { content := trimChars (sliceLast s1 ov ++ ' ' :: s2)
         metadata := { source := [], chunkIndex := 2, totalChunks := 3 } }] := by
  have hlen3 : ([s0, s1, s2] : List Str).length = 3 := rfl
  simp only [buildChunks, hlen3]
  rw [show List.range 3 = [0, 1, 2] from by decide]
  simp [hov, List.getD_cons_zero, List.getD_cons_succ]

/-- C4: `chunkText` on 2500 identical characters (no separator occurs)
with maxChunkSize 1000, overlap 200 and the default separator list yields
exactly 3 chunks: chunk 0 is the first 1000-character slice (length
exactly 1000), and each subsequent chunk is the last 200 characters of
the previous raw segment, a single joining space, and the next
fixed-size slice (1000 characters for chunk 1, 500 for the final one). -/
theorem C4_concrete_2500 :
    chunkText (List.replicate 2500 'A')
        { maxChunkSize := 1000, overlap := 200, separators := defaultSeparators } =
      [{ content := List.replicate 1000 'A'
         metadata := { source := [], chunkIndex := 0, totalChunks := 3 } },
       { content := List.replicate 200 'A' ++ ' ' :: List.replicate 1000 'A'
         metadata := { source := [], chunkIndex := 1, totalChunks := 3 } },
       { content := List.replicate 200 'A' ++ ' ' :: List.replicate 500 'A'
         metadata := { source := [], chunkIndex := 2, totalChunks := 3 } }] ∧
    (List.replicate 1000 'A').length = 1000 ∧
    sliceLast (List.replicate 1000 'A') 200 = List.replicate 200 'A' := by
  have hsl : sliceLast (List.replicate 1000 'A') 200 = List.replicate 200 'A' := by
    rw [sliceLast, if_neg (by omega), List.length_replicate, List.drop_replicate]
  have ht0 : trimChars (List.replicate 1000 'A') = List.replicate 1000 'A' :=
    trimChars_replicate 1000 'A' (by decide)
  have ht1 : trimChars (List.replicate 200 'A' ++ ' ' :: List.replicate 1000 'A') =
      List.replicate 200 'A' ++ ' ' :: List.replicate 1000 'A' :=
    trimChars_block 199 999 'A' ' ' (by decide)
  have ht2 : trimChars (List.replicate 200 'A' ++ ' ' :: List.replicate 500 'A') =
      List.replicate 200 'A' ++ ' ' :: List.replicate 500 'A' :=
    trimChars_block 199 499 'A' ' ' (by decide)
  refine ⟨?_, by rw [List.length_replicate], hsl⟩
  simp only [chunkText]
  rw [List.length_replicate]
  rw [if_neg (by omega)]
  rw [recursiveSplit_replicate_2500]
  rw [buildChunks_three _ _ _ 200 (by omega)]
  rw [hsl, ht0, ht1, ht2]

/-- The urls of the pages accumulated by the scrape loop are the
successfully fetched urls, in order, appended to those already present. -/
theorem runPages_urls (fetchPage : Str → Option PageData) :
    ∀ (urls visited : List Str) (results : List ScrapedPage),
      ((runPages fetchPage urls visited results).2).map (fun p => p.url) =
        results.map (fun p => p.url) ++
          urls.filter (fun u => (fetchPage u).isSome) := by
  intro urls
  induction urls with
  | nil => intro visited results; simp [runPages]
  | cons u rest ih =>
    intro visited results
    cases hf : fetchPage u with
    | none => simp [runPages, hf, ih]
    | some d => simp [runPages, hf, ih]

/-- C9: when the sitemap fetch succeeds, the run never aborts: it returns
the accumulated pages; the urls of the returned pages are exactly the
scheduled urls whose page fetch succeeded (failed fetches are skipped and
the loop proceeds); in particular no page is emitted for a url whose
fetch failed. -/
theorem C9_per_page_failure_skipped (env : FetchEnv) (config : ScraperConfig)
    (r : HttpResponse) (h : env.sitemapResponse = Except.ok r) :
    scrape env config =
      Except.ok (runPages env.fetchPage (candidateUrls env config r) [] []).2 ∧
    ((runPages env.fetchPage (candidateUrls env config r) [] []).2).map (fun p => p.url) =
      (candidateUrls env config r).filter (fun u => (env.fetchPage u).isSome) ∧
    ∀ u, env.fetchPage u = none →
      ∀ p ∈ (runPages env.fetchPage (candidateUrls env config r) [] []).2, p.url ≠ u := by
  have hmap := runPages_urls env.fetchPage (candidateUrls env config r) [] []
  simp only [List.map_nil, List.nil_append] at hmap
  refine ⟨?_, hmap, ?_⟩
  · simp only [scrape, fetchSitemap, h]
    rfl
  · intro u hu p hp hpu
    have hin : p.url ∈ (candidateUrls env config r).filter
        (fun v => (env.fetchPage v).isSome) := by
      rw [← hmap]
      exact List.mem_map_of_mem _ hp
    rw [hpu] at hin
    rcases List.mem_filter.1 hin with ⟨_, hsome⟩
    rw [hu] at hsome
    simp at hsome

/-- A fixed page-extraction outcome used by the concrete environments. -/
def pageDataA : PageData :=
  { title := "t".toList, content := "c".toList, links := []
    metadata := { description := [], headings := [] } }

/-- A sitemap response listing the urls a and b. -/
def respAB : HttpResponse :=
  { ok := true, status := 200, body := "<loc>a</loc><loc>b</loc>".toList }

/-- An environment where fetching url a fails and url b succeeds. -/
def envOneFails : FetchEnv :=
  { hostname := fun _ => some "h".toList
    sitemapResponse := Except.ok respAB
    fetchPage := fun u => if u = "b".toList then some pageDataA else none }

/-- A configuration with no domain or pattern restrictions. -/
def cfgOpen : ScraperConfig :=
  { allowedDomains := none, excludePatterns := none, maxPages := 500 }

/-- The page the concrete environments produce for url b. -/
def pgB : ScrapedPage :=
  { url := "b".toList, title := "t".toList, content := "c".toList
    links := [], metadata := { description := [], headings := [] } }

/-- C9 (witness): in the concrete environment the run succeeds and the
page for the surviving url b is not attributed to the failed url a. -/
theorem C9_per_page_failure_skipped_inst :
    scrape envOneFails cfgOpen =
      Except.ok (runPages envOneFails.fetchPage
        (candidateUrls envOneFails cfgOpen respAB) [] []).2 ∧
    pgB.url ≠ "a".toList :=
  ⟨(C9_per_page_failure_skipped envOneFails cfgOpen respAB rfl).1,
   (C9_per_page_failure_skipped envOneFails cfgOpen respAB rfl).2.2 "a".toList
     (by decide) pgB (by decide)⟩

/-- C3 (counterexample): a sitemap that lists the same url twice makes
one run of `scrape` append two pages with identical urls — the visited
set is only written inside a successful `scrapePage` (line 181), after
the upfront filter has already admitted both duplicates, so the claimed
check-and-insert-before-dispatch dedup does not hold. -/
theorem C3_cex_duplicate_sitemap :
    scrape
        { hostname := fun _ => some "h".toList
          sitemapResponse := Except.ok
            { ok := true, status := 200, body := "<loc>u</loc><loc>u</loc>".toList }
          fetchPage := fun _ => some pageDataA }
        cfgOpen =
      Except.ok
        [{ url := "u".toList, title := "t".toList, content := "c".toList
           links := [], metadata := { description := [], headings := [] } },
         { url := "u".toList, title := "t".toList, content := "c".toList
           links := [], metadata := { description := [], headings := [] } }] ∧
    ¬ (["u".toList, "u".toList] : List Str).Nodup := by
  constructor
  · rfl
  · decide

/-- C3 (amended): within one run of a freshly constructed scraper, if the
sitemap's extracted url list has no duplicates, then no two emitted pages
share a url.  (Dedup of duplicate sitemap entries is not guaranteed: the
visited set is inserted into only after a successful page fetch, not
before dispatch.) -/
theorem C3_nodup_results (env : FetchEnv) (config : ScraperConfig)
    (pages : List ScrapedPage)
    (hok : scrape env config = Except.ok pages)
    (hnd : ∀ r, env.sitemapResponse = Except.ok r → (extractLocs r.body).Nodup) :
    (pages.map (fun p => p.url)).Nodup := by
  cases h : env.sitemapResponse with
  | error e =>
    simp only [scrape, fetchSitemap, h] at hok
    exact absurd hok (by simp)
  | ok r =>
    simp only [scrape, fetchSitemap, h, Except.ok.injEq] at hok
    subst hok
    rw [runPages_urls]
    simp only [List.map_nil, List.nil_append]
    have h1 : ((extractLocs r.body).filter
        (fun u => shouldScrape env.hostname config [] u)).Nodup :=
      (hnd r h).filter _
    apply List.Nodup.filter
    split
    · exact (List.take_sublist _ _).nodup h1
    · exact h1

/-- C3 (witness): the amended statement in the concrete environment with
a duplicate-free sitemap. -/
theorem C3_nodup_results_inst : (([pgB] : List ScrapedPage).map (fun p => p.url)).Nodup :=
  C3_nodup_results envOneFails cfgOpen [pgB] (by rfl)
    (fun r hr => by
      injection hr with h2
      subst h2
      decide)

/-- C6 (counterexample): an HTTP response that indicates failure (status
404, `ok = false`) does NOT abort the run — `fetchSitemap` never checks
`response.ok` (lines 279-280), so the error body simply yields zero
`<loc>` entries and `scrape` completes successfully with no pages, where
the claim demands termination with an error. -/
theorem C6_cex_http_error_not_fatal :
    ({ ok := false, status := 404, body := "Not Found".toList } : HttpResponse).ok
        = false ∧
    scrape
        { hostname := fun _ => some "h".toList
          sitemapResponse := Except.ok
            { ok := false, status := 404, body := "Not Found".toList }
          fetchPage := fun _ => some pageDataA }
        cfgOpen =
      Except.ok [] := by
  constructor
  · rfl
  · rfl

/-- C6 (amended): a run propagates an error if and only if the sitemap
fetch operation itself rejects (network-level failure); in that case the
error is returned before any page work and no pages are emitted.  An HTTP
error response is not detected: its body merely yields whatever `<loc>`
entries it contains. -/
theorem C6_abort_iff_fetch_rejects (env : FetchEnv) (config : ScraperConfig) (e : Str) :
    scrape env config = Except.error e ↔ env.sitemapResponse = Except.error e := by
  cases h : env.sitemapResponse with
  | error e0 => simp [scrape, fetchSitemap, h]
  | ok r => simp [scrape, fetchSitemap, h]

/-- An environment whose sitemap fetch rejects outright. -/
def envNetErr : FetchEnv :=
  { hostname := fun _ => some "h".toList
    sitemapResponse := Except.error "fetch failed".toList
    fetchPage := fun _ => none }

/-- C6 (witness): a rejected sitemap fetch aborts the concrete run with
the propagated error. -/
theorem C6_abort_iff_fetch_rejects_inst :
    scrape envNetErr cfgOpen = Except.error "fetch failed".toList :=
  (C6_abort_iff_fetch_rejects envNetErr cfgOpen "fetch failed".toList).mpr rfl

/-- The classifier's version is always one of its two fixed values. -/
theorem extractMetadata_version_cases (page : ScrapedPage) :
    (extractMetadata page).version = "4.x".toList ∨
      (extractMetadata page).version = "3.x".toList := by
  dsimp only [extractMetadata]
  split
  · exact Or.inr rfl
  · exact Or.inl rfl

/-- The classifier's framework is always one of its four fixed values. -/
theorem extractMetadata_framework_cases (page : ScrapedPage) :
    (extractMetadata page).framework = "core".toList ∨
      (extractMetadata page).framework = "astro".toList ∨
      (extractMetadata page).framework = "vue".toList ∨
      (extractMetadata page).framework = "nunjucks".toList := by
  dsimp only [extractMetadata]
  split
  · exact Or.inr (Or.inl rfl)
  · split
    · exact Or.inr (Or.inr (Or.inl rfl))
    · split
      · exact Or.inr (Or.inr (Or.inr rfl))
      · exact Or.inl rfl

/-- The classifier's docType is always one of its four fixed values. -/
theorem extractMetadata_docType_cases (page : ScrapedPage) :
    (extractMetadata page).docType = "guide".toList ∨
      (extractMetadata page).docType = "reference".toList ∨
      (extractMetadata page).docType = "tutorial".toList ∨
      (extractMetadata page).docType = "migration".toList := by
  dsimp only [extractMetadata]
  split
  · exact Or.inr (Or.inl rfl)
  · split
    · exact Or.inr (Or.inr (Or.inl rfl))
    · split
      · exact Or.inr (Or.inr (Or.inr rfl))
      · exact Or.inl rfl

/-- C5 (amended): every document the assembler emits has its version,
framework and docType populated with one of the classifier's fixed
(default-backed) values; but the assembler performs no content
validation, so empty content passes through (see the counterexample). -/
theorem C5_fields_populated (pages : List ScrapedPage) (config : ChunkConfig)
    (d : WeaviateDocument) (hd : d ∈ processScrapedPages pages config) :
    (d.version = "4.x".toList ∨ d.version = "3.x".toList) ∧
    (d.framework = "core".toList ∨ d.framework = "astro".toList ∨
      d.framework = "vue".toList ∨ d.framework = "nunjucks".toList) ∧
    (d.docType = "guide".toList ∨ d.docType = "reference".toList ∨
      d.docType = "tutorial".toList ∨ d.docType = "migration".toList) := by
  simp only [processScrapedPages, List.mem_flatMap, List.mem_map] at hd
  obtain ⟨page, _, chunk, _, rfl⟩ := hd
  exact ⟨extractMetadata_version_cases page, extractMetadata_framework_cases page,
    extractMetadata_docType_cases page⟩

/-- A page whose content is empty. -/
def emptyContentPage : ScrapedPage :=
  { url := "https://docs.example.com/e".toList, title := "t".toList, content := []
    links := [], metadata := { description := [], headings := ["H".toList] } }

/-- C5 (counterexample): the claim says no document with empty content
reaches the sink's import operation; but a page with empty content
produces exactly one document whose content is empty, and
`processScrapedPages` (which contains no content validation) hands that
batch directly to `batchImport` (ingestion index.js line 67). -/
theorem C5_cex_empty_content_document :
    (processScrapedPages [emptyContentPage] defaultChunkConfig).map
        (fun d => d.content) = [[]] := by decide

/-- A well-formed sample page. -/
def samplePage : ScrapedPage :=
  { url := "https://docs.example.com/guide/intro.html".toList
    title := "Intro".toList, content := "hello world".toList, links := []
    metadata := { description := [], headings := ["Intro".toList] } }

/-- The first document assembled from the sample page. -/
def sampleDoc : WeaviateDocument :=
  (processScrapedPages [samplePage] defaultChunkConfig).headD
    { content := [], title := [], url := [], version := [], framework := []
      docType := [], keywords := []
      metadata := { sectionLabel := [], chunkIndex := 0, totalChunks := 0
                    description := [], headings := [] } }

/-- C5 (witness): the populated-fields statement at the concrete sample
document. -/
theorem C5_fields_populated_inst :
    (sampleDoc.version = "4.x".toList ∨ sampleDoc.version = "3.x".toList) ∧
    (sampleDoc.framework = "core".toList ∨ sampleDoc.framework = "astro".toList ∨
      sampleDoc.framework = "vue".toList ∨ sampleDoc.framework = "nunjucks".toList) ∧
    (sampleDoc.docType = "guide".toList ∨ sampleDoc.docType = "reference".toList ∨
      sampleDoc.docType = "tutorial".toList ∨ sampleDoc.docType = "migration".toList) :=
  C5_fields_populated [samplePage] defaultChunkConfig sampleDoc (by decide)

/-- C8 (counterexample): two distinct operation paths whose
slash-to-dash images coincide yield the same synthetic page URL — the
fragment `${method}-${path.replace(/\//g, '-')}` (line 201) is not
injective in the path. -/
theorem C8_cex_slash_dash_collision :
    operationPageUrl "spec.json".toList "get".toList "/a/b".toList =
      operationPageUrl "spec.json".toList "get".toList "/a-b".toList ∧
    ("/a/b".toList : Str) ≠ "/a-b".toList := by decide

/-- Splitting a list at a distinguished element that occurs in neither
prefix is unambiguous. -/
theorem noDash_append_inj (x1 : Str) :
    ∀ (x2 y1 y2 : Str), '-' ∉ x1 → '-' ∉ x2 →
      x1 ++ '-' :: y1 = x2 ++ '-' :: y2 → x1 = x2 ∧ y1 = y2 := by
  induction x1 with
  | nil =>
    intro x2 y1 y2 _ h2 heq
    cases x2 with
    | nil => simpa using heq
    | cons b t =>
      simp only [List.nil_append, List.cons_append, List.cons.injEq] at heq
      obtain ⟨hb, -⟩ := heq
      subst hb
      exact absurd (List.mem_cons_self _ _) h2
  | cons a s ih =>
    intro x2 y1 y2 h1 h2 heq
    cases x2 with
    | nil =>
      simp only [List.nil_append, List.cons_append, List.cons.injEq] at heq
      obtain ⟨hb, -⟩ := heq
      subst hb
      exact absurd (List.mem_cons_self _ _) h1
    | cons b t =>
      simp only [List.cons_append, List.cons.injEq] at heq
      obtain ⟨rfl, heq2⟩ := heq
      obtain ⟨h12, h34⟩ := ih t y1 y2
        (fun hm => h1 (List.mem_cons_of_mem a hm))
        (fun hm => h2 (List.mem_cons_of_mem a hm)) heq2
      exact ⟨by rw [h12], h34⟩

/-- C8 (amended): the synthetic URLs are deterministic functions of their
unit; schema-page fragments are injective in the schema name, and
operation-page fragments determine the method (none of the seven accepted
method keys contains a dash) and the slash-to-dash image of the path —
but not the path itself (see the counterexample). -/
theorem C8_fragment_injectivity (source m1 p1 m2 p2 n1 n2 : Str)
    (hm1 : m1 ∈ httpMethods) (hm2 : m2 ∈ httpMethods) :
    (operationPageUrl source m1 p1 = operationPageUrl source m2 p2 →
      m1 = m2 ∧ replaceSlashes p1 = replaceSlashes p2) ∧
    (schemaPageUrl source n1 = schemaPageUrl source n2 → n1 = n2) := by
  have hdash : ∀ m : Str, m ∈ httpMethods → '-' ∉ m := by
    intro m hm
    simp only [httpMethods, List.mem_cons, List.not_mem_nil, or_false] at hm
    rcases hm with rfl | rfl | rfl | rfl | rfl | rfl | rfl <;> decide
  constructor
  · intro heq
    have h1 : '#' :: (m1 ++ '-' :: replaceSlashes p1) =
        '#' :: (m2 ++ '-' :: replaceSlashes p2) :=
      List.append_cancel_left heq
    have h2 : m1 ++ '-' :: replaceSlashes p1 = m2 ++ '-' :: replaceSlashes p2 := by
      injection h1
    exact noDash_append_inj m1 m2 _ _ (hdash m1 hm1) (hdash m2 hm2) h2
  · intro heq
    have h1 : "#schema-".toList ++ n1 = "#schema-".toList ++ n2 :=
      List.append_cancel_left heq
    exact List.append_cancel_left h1

/-- C8 (witness): the injectivity statement instantiated at concrete
method, path and schema name. -/
theorem C8_fragment_injectivity_inst :
    (operationPageUrl "spec.json".toList "get".toList "/a".toList =
        operationPageUrl "spec.json".toList "get".toList "/a".toList →
      ("get".toList : Str) = "get".toList ∧
        replaceSlashes "/a".toList = replaceSlashes "/a".toList) ∧
    (schemaPageUrl "spec.json".toList "Pet".toList =
        schemaPageUrl "spec.json".toList "Pet".toList →
      ("Pet".toList : Str) = "Pet".toList) :=
  C8_fragment_injectivity "spec.json".toList "get".toList "/a".toList
    "get".toList "/a".toList "Pet".toList "Pet".toList (by decide) (by decide)
